import Mathlib

/-!
Verification of the midge MQTT codec layer: a shallow embedding of the
data-representation primitives (variable byte integers, fixed-capacity
UTF-8 buffers, length-prefixed UTF-8 strings, two-byte big-endian
integers) and the control-packet fixed header, with theorems settling
the specification claims.

Machine integers are modelled as `Nat`; the `as u16` cast and the
`u16` additions in the source are modelled as `% 65536`, the wrapping
semantics of release builds (debug builds panic on the overflowing
addition instead; the two behaviours differ only for length-field
values 65534 and 65535, and no theorem below asserts a success there).  Rust slices of `u8` are modelled as
`List Nat` (callers of the real code can only supply bytes `< 256`;
theorems carry that bound where it matters).  A Rust panic
(out-of-bounds index, `copy_from_slice` length mismatch, `unwrap` on an
error) is modelled as `Option.none` on the operations that can reach
one.
-/

namespace Midge

/-- Error taxonomy of `src/data_representation/errors.rs`. -/
inductive DataRepresentationError where
  | MalformedVariableByteInteger
  | VariableByteIntegerOutOfRange
  | FixedStrBufferOverflow
  | Utf8StringTooLong
  | NullTerminatorInString
  | Utf8BufferOverflow
  | Utf8MalformedBuffer
  | InvalidUTF8String
deriving DecidableEq, Repr

/-- Error taxonomy of `src/error.rs`. -/
inductive MqttError where
  | InvalidPacketType
  | InvalidQOSLevel
  | InvalidRetries
deriving DecidableEq, Repr

/-- `VariableByteInt` of `src/data_representation/variable_byte_int.rs`:
a `u32` value together with its encoded byte length. -/
structure VariableByteInt where
  value : Nat
  length : Nat
deriving DecidableEq, Repr

namespace VariableByteInt

/-- 28-bit ceiling `MAX_VALUE` from the source. -/
def MAX_VALUE : Nat := 0x0FFFFFFF

/-- The length-computing loop inside `VariableByteInt::new`:
`let mut length = 1; while x >= 128 { x /= 128; length += 1 }`. -/
def lenLoop (x : Nat) : Nat :=
  if x < 128 then 1 else lenLoop (x / 128) + 1
decreasing_by
  exact Nat.div_lt_self (by omega) (by norm_num)

/-- `VariableByteInt::new`. -/
def new (value : Nat) : Except DataRepresentationError VariableByteInt :=
  if value > MAX_VALUE then
    .error .MalformedVariableByteInteger
  else
    let length := lenLoop value
    if length > 4 then .error .VariableByteIntegerOutOfRange
    else .ok ⟨value, length⟩

/-- The byte-emitting loop inside `VariableByteInt::encode`: emit
`x % 128`, divide, set the continuation bit when more data follows,
stop when the working value reaches zero. -/
def encLoop (x : Nat) : List Nat :=
  if x / 128 = 0 then [x % 128]
  else (x % 128 ||| 128) :: encLoop (x / 128)
decreasing_by
  exact Nat.div_lt_self (by omega) (by norm_num)

/-- `VariableByteInt::encode`: the loop writes into a `[0u8; 4]` buffer
at successive indices; writing more than 4 bytes would be an
out-of-bounds panic, modelled as `none`. -/
def encode (v : VariableByteInt) : Option (List Nat) :=
  let bs := encLoop v.value
  if bs.length ≤ 4 then some (bs ++ List.replicate (4 - bs.length) 0)
  else none

/-- The loop inside `VariableByteInt::decode`, over `input.iter().take(4)`
with state (multiplier, value, length).  The continuation test
`byte & 128 == 0` and digit extraction `byte & 127` are kept as bitwise
operations on the byte. -/
def decodeGo : List Nat → Nat → Nat → Nat →
    Except DataRepresentationError VariableByteInt
  | [], _, _, _ => .error .MalformedVariableByteInteger
  | b :: rest, multiplier, value, length =>
    let digit := b &&& 127
    let value2 := value + digit * multiplier
    if multiplier > 128 * 128 * 128 then
      .error .MalformedVariableByteInteger
    else if b &&& 128 = 0 then
      .ok ⟨value2, length + 1⟩
    else
      decodeGo rest (multiplier * 128) value2 (length + 1)

/-- `VariableByteInt::decode`. -/
def decode (input : List Nat) : Except DataRepresentationError VariableByteInt :=
  decodeGo (input.take 4) 1 0 0

end VariableByteInt

/-- Overwrite `src.length` bytes of `buf` starting at index `start`:
the model of `buf[start..start + src.len()].copy_from_slice(src)`
(callers establish `start + src.length ≤ buf.length`). -/
def writeSlice (buf : List Nat) (start : Nat) (src : List Nat) : List Nat :=
  buf.take start ++ src ++ buf.drop (start + src.length)

/-- One step of the UTF-8 acceptance automaton (RFC 3629).  State 0
expects a lead byte; states 1, 2, 3 expect that many generic
continuation bytes (`0x80-0xBF`); states 4-7 expect the restricted
first continuation byte after the lead bytes `0xE0` (`0xA0-0xBF`),
`0xED` (`0x80-0x9F`), `0xF0` (`0x90-0xBF`) and `0xF4` (`0x80-0x8F`)
respectively.  Returns `none` on a byte that cannot continue. -/
def utf8Step (s b : Nat) : Option Nat :=
  match s with
  | 0 =>
    if b ≤ 0x7F then some 0
    else if 0xC2 ≤ b ∧ b ≤ 0xDF then some 1
    else if b = 0xE0 then some 4
    else if (0xE1 ≤ b ∧ b ≤ 0xEC) ∨ b = 0xEE ∨ b = 0xEF then some 2
    else if b = 0xED then some 5
    else if b = 0xF0 then some 6
    else if 0xF1 ≤ b ∧ b ≤ 0xF3 then some 3
    else if b = 0xF4 then some 7
    else none
  | 1 => if 0x80 ≤ b ∧ b ≤ 0xBF then some 0 else none
  | 2 => if 0x80 ≤ b ∧ b ≤ 0xBF then some 1 else none
  | 3 => if 0x80 ≤ b ∧ b ≤ 0xBF then some 2 else none
  | 4 => if 0xA0 ≤ b ∧ b ≤ 0xBF then some 1 else none
  | 5 => if 0x80 ≤ b ∧ b ≤ 0x9F then some 1 else none
  | 6 => if 0x90 ≤ b ∧ b ≤ 0xBF then some 2 else none
  | 7 => if 0x80 ≤ b ∧ b ≤ 0x8F then some 2 else none
  | _ => none

/-- Run of the UTF-8 acceptance automaton; accepts when the input ends
in state 0 (no character left incomplete). -/
def validUtf8Go : List Nat → Nat → Bool
  | [], s => s == 0
  | b :: rest, s =>
    match utf8Step s b with
    | some s2 => validUtf8Go rest s2
    | none => false

/-- UTF-8 validity of a byte sequence per RFC 3629: the acceptance
predicate of `core::str::from_utf8`, which backs both the `&str`
arguments the source receives and the validation step inside
`Utf8String::decode`. -/
def validUtf8 (l : List Nat) : Bool := validUtf8Go l 0

/-- `TwoByteInt` of `src/data_representation/two_byte_int.rs`:
a wrapper around a 16-bit unsigned integer. -/
structure TwoByteInt where
  val : Nat
deriving DecidableEq, Repr

namespace TwoByteInt

/-- `TwoByteInt::from_bytes`, i.e. `u16::from_be_bytes` (big-endian),
on two `u8` arguments. -/
def from_bytes (b0 b1 : Nat) : TwoByteInt := ⟨b0 * 256 + b1⟩

/-- `TwoByteInt::to_bytes`, i.e. `u16::to_be_bytes` (big-endian). -/
def to_bytes (t : TwoByteInt) : List Nat := [t.val / 256 % 256, t.val % 256]

/-- `TwoByteInt::value`. -/
def value (t : TwoByteInt) : Nat := t.val

/-- `impl From<u16> for TwoByteInt`; `% 65536` marks the `u16` domain
of the argument. -/
def ofNat (v : Nat) : TwoByteInt := ⟨v % 65536⟩

end TwoByteInt

/-- `FixedStr` of `src/data_representation/fixed_str.rs`: a backing
array of `N` bytes plus a used-length counter.  The derived equality
compares the whole backing array, exactly as Rust's
`#[derive(PartialEq)]` does. -/
structure FixedStr (N : Nat) where
  buffer : List Nat
  len : Nat
deriving DecidableEq, Repr

namespace FixedStr

/-- `FixedStr::new`: a zeroed buffer with used-length 0. -/
def new (N : Nat) : FixedStr N := ⟨List.replicate N 0, 0⟩

/-- `FixedStr::push_str` (the argument is the byte content of the
`&str` parameter). -/
def push_str {N : Nat} (fs : FixedStr N) (s : List Nat) :
    Except DataRepresentationError (FixedStr N) :=
  if s.length > N - fs.len then .error .FixedStrBufferOverflow
  else .ok ⟨writeSlice fs.buffer fs.len s, fs.len + s.length⟩

/-- `FixedStr::as_str`: `from_utf8(&buffer[..len]).unwrap()`; the
`unwrap` on invalid UTF-8 is a panic, modelled as `none`. -/
def as_str {N : Nat} (fs : FixedStr N) : Option (List Nat) :=
  if validUtf8 (fs.buffer.take fs.len) then some (fs.buffer.take fs.len)
  else none

/-- `FixedStr::clear`: resets the used-length, does not zero bytes. -/
def clear {N : Nat} (fs : FixedStr N) : FixedStr N := ⟨fs.buffer, 0⟩

end FixedStr

/-- `MAX_STR_LEN` of `src/data_representation/utf8_string.rs`. -/
def MAX_STR_LEN : Nat := 65535

/-- `Utf8String` of `src/data_representation/utf8_string.rs`: a
`FixedStr` buffer plus an explicit `u16` length field.  All writers of
the field perform the source's `as u16` cast, modelled as `% 65536`. -/
structure Utf8String (N : Nat) where
  value : FixedStr N
  length : Nat
deriving DecidableEq, Repr

namespace Utf8String

/-- `Utf8String::new`. -/
def new (N : Nat) : Utf8String N := ⟨FixedStr.new N, 0⟩

/-- `Utf8String::set` (the argument is the byte content of the `&str`
parameter; on a valid UTF-8 string, `contains('\0')` holds exactly when
byte 0 occurs). -/
def set {N : Nat} (s : Utf8String N) (v : List Nat) :
    Except DataRepresentationError (Utf8String N) :=
  if v.length > N then .error .Utf8StringTooLong
  else if v.contains 0 then .error .NullTerminatorInString
  else
    match (s.value.clear).push_str v with
    | .ok fs => .ok ⟨fs, v.length % 65536⟩
    | .error e => .error e

/-- `Utf8String::encode`: the outer `Option` models panics — `none`
when a slice index is out of bounds, when `as_str` unwraps invalid
UTF-8, or when the final `copy_from_slice` receives a source slice
whose length differs from the `self.length`-sized destination.  The
additions `self.length + 2` (overflow guard) and `2 + self.length`
(returned count) are `u16` additions in the source, modelled with the
wrapping `% 65536` of release builds (a debug build panics on the
overflow itself, so for length-field values 65534 and 65535 the real
program never returns normally under either build).  The slice bound
`2 + self.length as usize` is a `usize` addition and does not wrap, so
the wrapped guard no longer protects the two slice indexings, which
are therefore modelled as explicit panic branches, in source order:
`buffer[..2]` needs `2 ≤ buffer.len()`, `buffer[2..2 + self.length]`
needs `2 + self.length ≤ buffer.len()`. -/
def encode {N : Nat} (s : Utf8String N) (buffer : List Nat) :
    Option (Except DataRepresentationError (Nat × List Nat)) :=
  if s.length > MAX_STR_LEN then some (.error .Utf8StringTooLong)
  else if buffer.length < (s.length + 2) % 65536 then
    some (.error .Utf8BufferOverflow)
  else if buffer.length < 2 then none
  else if buffer.length < 2 + s.length then none
  else
    match s.value.as_str with
    | none => none
    | some content =>
      if content.length = s.length then
        let length_bytes := (TwoByteInt.ofNat s.length).to_bytes
        let buf1 := writeSlice buffer 0 length_bytes
        some (.ok ((2 + s.length) % 65536, writeSlice buf1 2 content))
      else none

/-- `Utf8String::decode`. -/
def decode (N : Nat) (buffer : List Nat) :
    Except DataRepresentationError (Utf8String N) :=
  match buffer with
  | b0 :: b1 :: _ =>
    let len := (TwoByteInt.from_bytes b0 b1).value
    if len + 2 > buffer.length then .error .Utf8MalformedBuffer
    else
      let utf8_bytes := (buffer.drop 2).take len
      if validUtf8 utf8_bytes then
        if utf8_bytes.contains 0 then .error .NullTerminatorInString
        else (Utf8String.new N).set utf8_bytes
      else .error .InvalidUTF8String
  | _ => .error .Utf8MalformedBuffer

end Utf8String

/-- `ControlPacketType` of `src/packet.rs`. -/
inductive ControlPacketType where
  | RESERVED | CONNECT | CONNACK | PUBLISH | PUBACK | PUBREC | PUBREL
  | PUBCOMP | SUBSCRIBE | SUBACK | UNSUBSCRIBE | UNSUBACK | PINGREQ
  | PINGRESP | DISCONNECT | AUTH
deriving DecidableEq, Repr

/-- The `repr(u8)` discriminant of `ControlPacketType`. -/
def ControlPacketType.toNat : ControlPacketType → Nat
  | .RESERVED => 0
  | .CONNECT => 1
  | .CONNACK => 2
  | .PUBLISH => 3
  | .PUBACK => 4
  | .PUBREC => 5
  | .PUBREL => 6
  | .PUBCOMP => 7
  | .SUBSCRIBE => 8
  | .SUBACK => 9
  | .UNSUBSCRIBE => 10
  | .UNSUBACK => 11
  | .PINGREQ => 12
  | .PINGRESP => 13
  | .DISCONNECT => 14
  | .AUTH => 15

/-- `QOS` of `src/packet.rs`. -/
inductive QOS where
  | ATMOSTONCE | ATLEASTONCE | EXACTLYONCE
deriving DecidableEq, Repr

/-- The `repr(u8)` discriminant of `QOS`. -/
def QOS.toNat : QOS → Nat
  | .ATMOSTONCE => 0
  | .ATLEASTONCE => 1
  | .EXACTLYONCE => 2

/-- Per-type flag constants of `src/packet.rs`. -/
def CONNECT_FLAGS : Nat := 0x00
def CONNACK_FLAGS : Nat := 0x00
def PUBACK_FLAGS : Nat := 0x00
def PUBREC_FLAGS : Nat := 0x00
def PUBREL_FLAGS : Nat := 0x02
def PUBCOMP_FLAGS : Nat := 0x00
def SUBSCRIBE_FLAGS : Nat := 0x02
def SUBACK_FLAGS : Nat := 0x00
def UNSUBSCRIBE_FLAGS : Nat := 0x02
def UNSUBACK_FLAGS : Nat := 0x00
def PINGREQ_FLAGS : Nat := 0x00
def PINGRESP_FLAGS : Nat := 0x00
def DISCONNECT_FLAGS : Nat := 0x00
def AUTH_FLAGS : Nat := 0x00

/-- `FixedHeader` of `src/packet.rs`: a tagged variant of a standard
header (type only) or a publish header (type plus QoS and DUP flag). -/
inductive FixedHeader where
  | Standard (packet_type : ControlPacketType)
  | Publish (packet_type : ControlPacketType) (qos : QOS) (dup : Bool)
deriving DecidableEq, Repr

namespace FixedHeader

/-- `FixedHeader::new`. -/
def new (packet_type : ControlPacketType) : Except MqttError FixedHeader :=
  match packet_type with
  | .RESERVED => .error .InvalidPacketType
  | .PUBLISH => .error .InvalidPacketType
  | _ => .ok (.Standard packet_type)

/-- `FixedHeader::new_publish`. -/
def new_publish (qos : QOS) (dup : Bool) : Except MqttError FixedHeader :=
  .ok (.Publish .PUBLISH qos dup)

/-- The flag lookup `match` inside `FixedHeader::encode` (the `_`
catch-all covers `RESERVED` and `PUBLISH`). -/
def standardFlags : ControlPacketType → Except MqttError Nat
  | .CONNECT => .ok CONNECT_FLAGS
  | .CONNACK => .ok CONNACK_FLAGS
  | .PUBACK => .ok PUBACK_FLAGS
  | .PUBREC => .ok PUBREC_FLAGS
  | .PUBREL => .ok PUBREL_FLAGS
  | .PUBCOMP => .ok PUBCOMP_FLAGS
  | .SUBSCRIBE => .ok SUBSCRIBE_FLAGS
  | .SUBACK => .ok SUBACK_FLAGS
  | .UNSUBSCRIBE => .ok UNSUBSCRIBE_FLAGS
  | .UNSUBACK => .ok UNSUBACK_FLAGS
  | .PINGREQ => .ok PINGREQ_FLAGS
  | .PINGRESP => .ok PINGRESP_FLAGS
  | .DISCONNECT => .ok DISCONNECT_FLAGS
  | .AUTH => .ok AUTH_FLAGS
  | _ => .error .InvalidPacketType

/-- `FixedHeader::encode`: byte 0 is the packet type shifted into the
high nibble OR-ed with the flags (fixed per type for standard headers;
DUP on bit 3 and QoS on bits 2-1 for publish headers); byte 1 is the
remaining-length placeholder `0x00`. -/
def encode : FixedHeader → Except MqttError (List Nat)
  | .Standard packet_type =>
    match standardFlags packet_type with
    | .ok fl => .ok [packet_type.toNat <<< 4 ||| fl, 0x00]
    | .error e => .error e
  | .Publish packet_type qos dup =>
    .ok [(packet_type.toNat <<< 4 ||| (if dup then 0x08 else 0)) |||
      qos.toNat <<< 1, 0x00]

end FixedHeader

/-! ### Bitwise facts about bytes

The source manipulates `u8` values with `& 127`, `& 128` and `| 128`;
these finite facts bridge the bitwise operations with arithmetic. -/

theorem and127_of_lt : ∀ x < 128, x &&& 127 = x := by decide

theorem and128_of_lt : ∀ x < 128, x &&& 128 = 0 := by decide

theorem or128_and127 : ∀ x < 128, (x ||| 128) &&& 127 = x := by decide

theorem or128_and128 : ∀ x < 128, (x ||| 128) &&& 128 = 128 := by decide

namespace VariableByteInt

theorem lenLoop_pos (v : Nat) : 1 ≤ lenLoop v := by
  rw [lenLoop]
  split <;> omega

theorem lt_pow_lenLoop (v : Nat) : v < 128 ^ lenLoop v := by
  induction v using Nat.strong_induction_on with
  | _ v ih =>
    rw [lenLoop]
    split
    · next h => simpa using h
    · next h =>
      have ihv := ih (v / 128) (Nat.div_lt_self (by omega) (by norm_num))
      have hlt : v < 128 ^ lenLoop (v / 128) * 128 :=
        (Nat.div_lt_iff_lt_mul (by norm_num)).mp ihv
      calc v < 128 ^ lenLoop (v / 128) * 128 := hlt
        _ = 128 ^ (lenLoop (v / 128) + 1) := (pow_succ 128 _).symm

theorem lenLoop_min (v : Nat) : ∀ k, 1 ≤ k → v < 128 ^ k → lenLoop v ≤ k := by
  induction v using Nat.strong_induction_on with
  | _ v ih =>
    intro k hk hv
    rw [lenLoop]
    split
    · omega
    · next h =>
      have hk2 : 2 ≤ k := by
        rcases Nat.lt_or_ge k 2 with h2 | h2
        · have hk1 : k = 1 := by omega
          subst hk1
          simp only [pow_one] at hv
          omega
        · exact h2
      have hdiv : v / 128 < 128 ^ (k - 1) := by
        apply (Nat.div_lt_iff_lt_mul (by norm_num)).mpr
        calc v < 128 ^ k := hv
          _ = 128 ^ (k - 1) * 128 := by
            rw [← pow_succ]
            congr 1
            omega
      have := ih (v / 128) (Nat.div_lt_self (by omega) (by norm_num))
        (k - 1) (by omega) hdiv
      omega

theorem encLoop_length (v : Nat) : (encLoop v).length = lenLoop v := by
  induction v using Nat.strong_induction_on with
  | _ v ih =>
    by_cases h : v < 128
    · rw [encLoop, if_pos (Nat.div_eq_of_lt h), lenLoop, if_pos h]
      rfl
    · have hd : ¬ v / 128 = 0 := by
        rw [Nat.div_eq_zero_iff (by norm_num)]
        exact h
      rw [encLoop, if_neg hd, lenLoop, if_neg h]
      simp [ih (v / 128) (Nat.div_lt_self (by omega) (by norm_num))]

/-- Decoding the encoder's output from any digit position: running the
decode loop on `encLoop v` (followed by arbitrary trailing bytes) at
multiplier `128 ^ len` adds `v * 128 ^ len` to the accumulator and
`lenLoop v` to the byte count. -/
theorem decodeGo_encLoop (v : Nat) : ∀ rest acc len, len + lenLoop v ≤ 4 →
    decodeGo (encLoop v ++ rest) (128 ^ len) acc len =
      .ok ⟨acc + v * 128 ^ len, len + lenLoop v⟩ := by
  induction v using Nat.strong_induction_on with
  | _ v ih =>
    intro rest acc len hlen
    by_cases h : v < 128
    · have hL : lenLoop v = 1 := by rw [lenLoop, if_pos h]
      rw [hL] at hlen
      rw [encLoop, if_pos (Nat.div_eq_of_lt h), hL]
      have hmod : v % 128 = v := Nat.mod_eq_of_lt h
      rw [List.cons_append, List.nil_append]
      simp only [decodeGo, hmod]
      have hple : (128 : Nat) ^ len ≤ 128 ^ 3 :=
        Nat.pow_le_pow_right (by norm_num) (by omega)
      rw [if_neg (by norm_num at hple ⊢; omega)]
      rw [and128_of_lt v h, if_pos rfl, and127_of_lt v h]
    · have hd : ¬ v / 128 = 0 := by
        rw [Nat.div_eq_zero_iff (by norm_num)]
        exact h
      have hL : lenLoop v = lenLoop (v / 128) + 1 := by rw [lenLoop, if_neg h]
      have hm : v % 128 < 128 := Nat.mod_lt _ (by norm_num)
      have hLp := lenLoop_pos (v / 128)
      rw [encLoop, if_neg hd, List.cons_append]
      simp only [decodeGo]
      have hple : (128 : Nat) ^ len ≤ 128 ^ 2 :=
        Nat.pow_le_pow_right (by norm_num) (by omega)
      rw [if_neg (by norm_num at hple ⊢; omega)]
      rw [or128_and128 _ hm, if_neg (by norm_num), or128_and127 _ hm]
      rw [show (128 : Nat) ^ len * 128 = 128 ^ (len + 1) from (pow_succ 128 len).symm]
      rw [ih (v / 128) (Nat.div_lt_self (by omega) (by norm_num)) rest
        (acc + v % 128 * 128 ^ len) (len + 1) (by omega)]
      have key : acc + v % 128 * 128 ^ len + v / 128 * 128 ^ (len + 1) =
          acc + v * 128 ^ len := by
        have hv := Nat.div_add_mod v 128
        calc acc + v % 128 * 128 ^ len + v / 128 * 128 ^ (len + 1)
            = acc + (128 * (v / 128) + v % 128) * 128 ^ len := by ring
          _ = acc + v * 128 ^ len := by rw [hv]
      rw [key]
      have hlen2 : len + 1 + lenLoop (v / 128) = len + lenLoop v := by omega
      rw [hlen2]

end VariableByteInt

end Midge

open Midge Midge.VariableByteInt in
/-- C1: for every value `v` in `[0, 0x0FFFFFFF]`, `VariableByteInt::new v`
succeeds with value `v`, `encode` produces a 4-byte array, and `decode`
of that array yields a `VariableByteInt` whose value is `v` and whose
length is the minimal number of base-128 digits needed to represent `v`
(at least 1: the length `w.length` satisfies `v < 128 ^ w.length` and is
below any digit count `k ≥ 1` with `v < 128 ^ k`). -/
theorem vbi_new_encode_decode_roundtrip (v : Nat) (hv : v ≤ 0x0FFFFFFF) :
    ∃ vbi arr w, VariableByteInt.new v = .ok vbi ∧ vbi.value = v ∧
      vbi.encode = some arr ∧ arr.length = 4 ∧
      VariableByteInt.decode arr = .ok w ∧ w.value = v ∧ w.length = vbi.length ∧
      1 ≤ w.length ∧ v < 128 ^ w.length ∧
      (∀ k, 1 ≤ k → v < 128 ^ k → w.length ≤ k) := by
  have h4 : lenLoop v ≤ 4 := by
    apply lenLoop_min v 4 (by norm_num)
    norm_num
    omega
  have hnew : VariableByteInt.new v = .ok ⟨v, lenLoop v⟩ := by
    rw [VariableByteInt.new, if_neg (by simp only [MAX_VALUE]; omega)]
    simp only []
    rw [if_neg (by omega)]
  have hbs : (encLoop v).length = lenLoop v := encLoop_length v
  have henc : VariableByteInt.encode ⟨v, lenLoop v⟩ =
      some (encLoop v ++ List.replicate (4 - lenLoop v) 0) := by
    rw [VariableByteInt.encode]
    simp only [hbs]
    rw [if_pos h4]
  have harrlen : (encLoop v ++ List.replicate (4 - lenLoop v) 0).length = 4 := by
    simp only [List.length_append, List.length_replicate, hbs]
    omega
  have hdec : VariableByteInt.decode (encLoop v ++ List.replicate (4 - lenLoop v) 0) =
      .ok ⟨v, lenLoop v⟩ := by
    rw [VariableByteInt.decode]
    rw [List.take_of_length_le (by omega)]
    have := decodeGo_encLoop v (List.replicate (4 - lenLoop v) 0) 0 0 (by omega)
    simpa using this
  exact ⟨⟨v, lenLoop v⟩, _, ⟨v, lenLoop v⟩, hnew, rfl, henc, harrlen, hdec, rfl, rfl,
    lenLoop_pos v, lt_pow_lenLoop v, fun k hk hvk => lenLoop_min v k hk hvk⟩

open Midge Midge.VariableByteInt in
/-- Witness for C1 at the concrete input `v = 0x69420`. -/
theorem vbi_new_encode_decode_roundtrip_witness :
    ∃ vbi arr w, VariableByteInt.new 0x69420 = .ok vbi ∧ vbi.value = 0x69420 ∧
      vbi.encode = some arr ∧ arr.length = 4 ∧
      VariableByteInt.decode arr = .ok w ∧ w.value = 0x69420 ∧ w.length = vbi.length ∧
      1 ≤ w.length ∧ 0x69420 < 128 ^ w.length ∧
      (∀ k, 1 ≤ k → 0x69420 < 128 ^ k → w.length ≤ k) :=
  vbi_new_encode_decode_roundtrip 0x69420 (by norm_num)

open Midge Midge.VariableByteInt in
/-- Counterexample to C5 as stated: the value reachable through
`VariableByteInt::decode` on the padded input `[0x80, 0, 0, 0]` stores
byte-length 2, yet the minimal base-128 encoding length of its value 0
is 1 (`0 < 128 ^ 1` with `1 ≥ 1`, but the stored length 2 is not `≤ 1`),
so decode-reachable values do not always carry the minimal length. -/
theorem vbi_decode_nonminimal_counterexample :
    VariableByteInt.decode [128, 0, 0, 0] = .ok ⟨0, 2⟩ ∧
    (0 : Nat) < 128 ^ 1 ∧ ¬ ((2 : Nat) ≤ 1) := by
  refine ⟨rfl, by norm_num, by norm_num⟩

open Midge Midge.VariableByteInt in
/-- C5 amended: every `VariableByteInt` reachable through the
constructor `VariableByteInt::new` stores a byte-length that is the
minimal encoding length of its value under the base-128 continuation
scheme (a value obtained from `decode` instead stores the number of
bytes consumed, which exceeds the minimum on padded non-minimal
inputs). -/
theorem vbi_new_length_minimal (v : Nat) (vbi : VariableByteInt)
    (h : VariableByteInt.new v = .ok vbi) :
    1 ≤ vbi.length ∧ vbi.value < 128 ^ vbi.length ∧
      (∀ k, 1 ≤ k → vbi.value < 128 ^ k → vbi.length ≤ k) := by
  rw [VariableByteInt.new] at h
  split at h
  · simp at h
  · simp only [] at h
    split at h
    · simp at h
    · have hvb : VariableByteInt.mk v (lenLoop v) = vbi := by
        injection h
      subst hvb
      exact ⟨lenLoop_pos v, lt_pow_lenLoop v, fun k hk h2 => lenLoop_min v k hk h2⟩

open Midge Midge.VariableByteInt in
/-- Witness for the amended C5 at the concrete input `v = 200`. -/
theorem vbi_new_length_minimal_witness :
    1 ≤ (VariableByteInt.mk 200 2).length ∧
      (VariableByteInt.mk 200 2).value < 128 ^ (VariableByteInt.mk 200 2).length ∧
      (∀ k, 1 ≤ k → (VariableByteInt.mk 200 2).value < 128 ^ k →
        (VariableByteInt.mk 200 2).length ≤ k) :=
  vbi_new_length_minimal 200 ⟨200, 2⟩ (by
    rw [VariableByteInt.new]
    norm_num [MAX_VALUE]
    rw [lenLoop]
    norm_num
    rw [lenLoop]
    norm_num)

open Midge Midge.VariableByteInt in
/-- C9: (a) whenever the first four bytes of the input all have their
continuation bit (bit 7) set, `VariableByteInt::decode` fails with
malformed-integer; (b) decode stops consuming input at the first byte
whose continuation bit is clear: if the first clear byte sits at
position `i` (within the 4-byte window), the result is determined by
the first `i + 1` bytes alone and reports `i + 1` consumed bytes. -/
theorem vbi_decode_stop_behavior (input : List Nat) :
    (4 ≤ input.length →
      (∀ i, i < 4 → input.getD i 0 &&& 128 ≠ 0) →
      VariableByteInt.decode input = .error .MalformedVariableByteInteger) ∧
    (∀ i, i < 4 → i < input.length →
      (∀ j, j < i → input.getD j 0 &&& 128 ≠ 0) →
      input.getD i 0 &&& 128 = 0 →
      VariableByteInt.decode (input.take (i + 1)) = VariableByteInt.decode input ∧
      ∃ w, VariableByteInt.decode input = .ok w ∧ w.length = i + 1) := by
  constructor
  · intro hlen hcont
    rcases input with _ | ⟨b0, _ | ⟨b1, _ | ⟨b2, _ | ⟨b3, rest⟩⟩⟩⟩ <;>
      simp only [List.length] at hlen <;> try omega
    have h0 := hcont 0 (by norm_num)
    have h1 := hcont 1 (by norm_num)
    have h2 := hcont 2 (by norm_num)
    have h3 := hcont 3 (by norm_num)
    simp only [List.getD_cons_zero, List.getD_cons_succ] at h0 h1 h2 h3
    simp [VariableByteInt.decode, decodeGo, h0, h1, h2, h3]
  · intro i hi4 hilen hbefore hclear
    interval_cases i
    · rcases input with _ | ⟨b0, rest⟩
      · simp at hilen
      · simp only [List.getD_cons_zero] at hclear
        refine ⟨?_, ?_⟩
        · simp [VariableByteInt.decode, decodeGo, hclear]
        · simp only [VariableByteInt.decode, List.take_succ_cons, decodeGo]
          rw [if_neg (by norm_num), if_pos hclear]
          exact ⟨_, rfl, rfl⟩
    · rcases input with _ | ⟨b0, _ | ⟨b1, rest⟩⟩
      · simp at hilen
      · simp at hilen
      · have h0 := hbefore 0 (by norm_num)
        simp only [List.getD_cons_zero, List.getD_cons_succ] at h0 hclear
        refine ⟨?_, ?_⟩
        · simp [VariableByteInt.decode, decodeGo, h0, hclear]
        · simp only [VariableByteInt.decode, List.take_succ_cons, decodeGo]
          rw [if_neg (by norm_num), if_neg h0, if_neg (by norm_num), if_pos hclear]
          exact ⟨_, rfl, rfl⟩
    · rcases input with _ | ⟨b0, _ | ⟨b1, _ | ⟨b2, rest⟩⟩⟩
      · simp at hilen
      · simp at hilen
      · simp at hilen
      · have h0 := hbefore 0 (by norm_num)
        have h1 := hbefore 1 (by norm_num)
        simp only [List.getD_cons_zero, List.getD_cons_succ] at h0 h1 hclear
        refine ⟨?_, ?_⟩
        · simp [VariableByteInt.decode, decodeGo, h0, h1, hclear]
        · simp only [VariableByteInt.decode, List.take_succ_cons, decodeGo]
          rw [if_neg (by norm_num), if_neg h0, if_neg (by norm_num), if_neg h1,
            if_neg (by norm_num), if_pos hclear]
          exact ⟨_, rfl, rfl⟩
    · rcases input with _ | ⟨b0, _ | ⟨b1, _ | ⟨b2, _ | ⟨b3, rest⟩⟩⟩⟩
      · simp at hilen
      · simp at hilen
      · simp at hilen
      · simp at hilen
      · have h0 := hbefore 0 (by norm_num)
        have h1 := hbefore 1 (by norm_num)
        have h2 := hbefore 2 (by norm_num)
        simp only [List.getD_cons_zero, List.getD_cons_succ] at h0 h1 h2 hclear
        refine ⟨?_, ?_⟩
        · simp [VariableByteInt.decode, decodeGo, h0, h1, h2, hclear]
        · simp only [VariableByteInt.decode, List.take_succ_cons, decodeGo]
          rw [if_neg (by norm_num), if_neg h0, if_neg (by norm_num), if_neg h1,
            if_neg (by norm_num), if_neg h2, if_neg (by norm_num), if_pos hclear]
          exact ⟨_, rfl, rfl⟩

open Midge Midge.VariableByteInt in
/-- Witness for C9: part (a) at the all-continuation input
`[255, 255, 255, 255]`, part (b) at `[129, 130, 3, 7]`, whose first
clear-bit byte sits at index 2. -/
theorem vbi_decode_stop_behavior_witness :
    (VariableByteInt.decode [255, 255, 255, 255] =
      .error .MalformedVariableByteInteger) ∧
    (VariableByteInt.decode ([129, 130, 3, 7].take 3) =
      VariableByteInt.decode [129, 130, 3, 7] ∧
    ∃ w, VariableByteInt.decode [129, 130, 3, 7] = .ok w ∧ w.length = 3) :=
  ⟨(vbi_decode_stop_behavior [255, 255, 255, 255]).1 (by norm_num) (by decide),
   (vbi_decode_stop_behavior [129, 130, 3, 7]).2 2 (by norm_num) (by norm_num)
     (by decide) (by decide)⟩

open Midge in
/-- C7: the standard fixed-header constructor fails with
invalid-packet-type exactly on `RESERVED` and `PUBLISH`, and succeeds
with a standard header carrying the requested type on each of the other
14 control-packet types. -/
theorem fixed_header_new_spec (pt : ControlPacketType) :
    FixedHeader.new pt =
      (if pt = .RESERVED ∨ pt = .PUBLISH then .error .InvalidPacketType
       else .ok (.Standard pt)) := by
  cases pt <;> rfl

open Midge in
/-- C6: whenever `FixedHeader::encode` succeeds, the result is two
bytes; byte 0 carries the packet type in bits 7-4 and the flags in
bits 3-0 (`0b0010` for standard SUBSCRIBE/UNSUBSCRIBE/PUBREL headers,
`0b0000` for the other standard types; for publish headers bit 3 is the
DUP flag, bits 2-1 the QoS level and bit 0 is 0); byte 1 is `0x00`. -/
theorem fixed_header_encode_bits (h : FixedHeader) (out : List Nat)
    (henc : h.encode = .ok out) :
    out.length = 2 ∧ out.getD 1 0 = 0 ∧
    (∀ pt, h = .Standard pt →
      out.getD 0 0 / 16 = pt.toNat ∧
      out.getD 0 0 % 16 =
        (if pt = .SUBSCRIBE ∨ pt = .UNSUBSCRIBE ∨ pt = .PUBREL then 2 else 0)) ∧
    (∀ pt qos dup, h = .Publish pt qos dup →
      out.getD 0 0 / 16 = pt.toNat ∧
      out.getD 0 0 % 16 = (if dup then 8 else 0) + qos.toNat * 2 ∧
      out.getD 0 0 % 2 = 0) := by
  cases h with
  | Standard pt =>
    cases pt
    all_goals
      simp only [FixedHeader.encode, FixedHeader.standardFlags,
        Except.ok.injEq, reduceCtorEq] at henc
    all_goals subst henc
    all_goals
      exact ⟨rfl, rfl, fun pt2 hpt => by cases hpt; decide,
        fun pt2 qos2 dup2 hpt => FixedHeader.noConfusion hpt⟩
  | Publish pt qos dup =>
    cases pt <;> cases qos <;> cases dup
    all_goals simp only [FixedHeader.encode, Except.ok.injEq] at henc
    all_goals subst henc
    all_goals
      exact ⟨rfl, rfl, fun pt2 hpt => FixedHeader.noConfusion hpt,
        fun pt2 qos2 dup2 hpt => by
          injection hpt with h1 h2 h3
          subst h1
          subst h2
          subst h3
          decide⟩

open Midge in
/-- Witness for C6 at the standard CONNECT header and its encoding
`[0b00010000, 0x00]`. -/
theorem fixed_header_encode_bits_witness :
    ([16, 0] : List Nat).length = 2 ∧ ([16, 0] : List Nat).getD 1 0 = 0 ∧
    (∀ pt, FixedHeader.Standard .CONNECT = .Standard pt →
      ([16, 0] : List Nat).getD 0 0 / 16 = pt.toNat ∧
      ([16, 0] : List Nat).getD 0 0 % 16 =
        (if pt = .SUBSCRIBE ∨ pt = .UNSUBSCRIBE ∨ pt = .PUBREL then 2 else 0)) ∧
    (∀ pt qos dup, FixedHeader.Standard .CONNECT = .Publish pt qos dup →
      ([16, 0] : List Nat).getD 0 0 / 16 = pt.toNat ∧
      ([16, 0] : List Nat).getD 0 0 % 16 = (if dup then 8 else 0) + qos.toNat * 2 ∧
      ([16, 0] : List Nat).getD 0 0 % 2 = 0) :=
  fixed_header_encode_bits (.Standard .CONNECT) [16, 0] rfl

open Midge in
/-- C10: every fixed header produced by one of the two public
constructors encodes successfully — the invalid-packet-type branch of
`encode` is unreachable for constructor-produced headers. -/
theorem fixed_header_ctor_encode_total :
    (∀ pt h, FixedHeader.new pt = .ok h → ∃ out, h.encode = .ok out) ∧
    (∀ qos dup h, FixedHeader.new_publish qos dup = .ok h →
      ∃ out, h.encode = .ok out) := by
  constructor
  · intro pt h hnew
    cases pt <;> simp only [FixedHeader.new, Except.ok.injEq, reduceCtorEq] at hnew <;>
      subst hnew <;> exact ⟨_, rfl⟩
  · intro qos dup h hnew
    simp only [FixedHeader.new_publish, Except.ok.injEq] at hnew
    subst hnew
    exact ⟨_, rfl⟩

open Midge in
/-- Witness for C10 at the standard CONNECT header and at the publish
header with QoS exactly-once and DUP set. -/
theorem fixed_header_ctor_encode_total_witness :
    (∃ out, (FixedHeader.Standard .CONNECT).encode = .ok out) ∧
    (∃ out, (FixedHeader.Publish .PUBLISH .EXACTLYONCE true).encode = .ok out) :=
  ⟨fixed_header_ctor_encode_total.1 .CONNECT _ rfl,
   fixed_header_ctor_encode_total.2 .EXACTLYONCE true _ rfl⟩

namespace Midge

theorem drop_replicate_eq (a : Nat) : ∀ m n,
    (List.replicate m a).drop n = List.replicate (m - n) a := by
  intro m
  induction m with
  | zero => intro n; simp
  | succ m ih =>
    intro n
    cases n with
    | zero => simp
    | succ n =>
      rw [List.replicate_succ, List.drop_succ_cons, ih n, Nat.succ_sub_succ]

theorem validUtf8_replicate_97 : ∀ n, validUtf8 (List.replicate n 97) = true := by
  intro n
  induction n with
  | zero => rfl
  | succ n ih =>
    rw [List.replicate_succ]
    exact ih

theorem contains_replicate_97 : ∀ n, (List.replicate n 97).contains 0 = false := by
  intro n
  induction n with
  | zero => rfl
  | succ n ih =>
    rw [List.replicate_succ]
    exact ih

/-- The result of `Utf8String::set` on a freshly constructed string. -/
theorem set_fresh (N : Nat) (v : List Nat) (hlen : v.length ≤ N)
    (hnull : v.contains 0 = false) :
    (Utf8String.new N).set v =
      .ok ⟨⟨v ++ List.replicate (N - v.length) 0, v.length⟩, v.length % 65536⟩ := by
  rw [Utf8String.set, if_neg (by omega),
    if_neg (by rw [hnull]; exact Bool.false_ne_true)]
  have hclear : (Utf8String.new N).value.clear = FixedStr.new N := rfl
  rw [hclear, FixedStr.new, FixedStr.push_str]
  rw [if_neg (by simp only [List.length_replicate]; omega)]
  simp [writeSlice, drop_replicate_eq]

end Midge

open Midge in
/-- C2 amended: for every `Utf8String` of capacity `N` whose length
field matches the buffer's used length (every such state reachable with
content length within `min(N, 65533)`), whose content is null-free
(and valid UTF-8, as guaranteed by the `&str` type of `set`), encoding
into a sufficiently large buffer and decoding that buffer returns a
string with the same length field and the same content bytes.  Two
concessions forced by the code: full structural equality can fail (the
source's derived equality also compares buffer bytes past the used
length, which `decode` zeroes but a re-`set` string may leave dirty),
and lengths 65534-65535 are excluded because the `u16` additions
`self.length + 2` and `2 + self.length` in `encode` overflow there
(release builds wrap the guard and the returned count, debug builds
panic on the addition). -/
theorem utf8_encode_decode_roundtrip (N : Nat) (s : Utf8String N)
    (buffer : List Nat)
    (hbuf : s.value.buffer.length = N) (hlen : s.value.len ≤ N)
    (hsync : s.length = s.value.len) (hmax : s.length ≤ 65533)
    (hvalid : validUtf8 (s.value.buffer.take s.value.len) = true)
    (hnull : (s.value.buffer.take s.value.len).contains 0 = false)
    (htarget : s.length + 2 ≤ buffer.length) :
    ∃ out r, s.encode buffer = some (.ok (2 + s.length, out)) ∧
      Utf8String.decode N out = .ok r ∧
      r.length = s.length ∧ r.value.len = s.value.len ∧
      r.value.buffer.take r.value.len = s.value.buffer.take s.value.len := by
  set C := s.value.buffer.take s.value.len with hC
  have hClen : C.length = s.length := by
    rw [hC, List.length_take]
    omega
  have hCN : C.length ≤ N := by omega
  have hout : s.encode buffer = some (.ok (2 + s.length,
      s.length / 256 :: s.length % 256 :: (C ++ buffer.drop (s.length + 2)))) := by
    rw [Utf8String.encode]
    rw [if_neg (by simp only [MAX_STR_LEN]; omega)]
    rw [if_neg (by omega)]
    rw [if_neg (by omega)]
    rw [if_neg (by omega)]
    rw [show s.value.as_str = some C from by rw [FixedStr.as_str, if_pos hvalid]]
    dsimp only []
    rw [if_pos hClen]
    rw [Nat.mod_eq_of_lt (show 2 + s.length < 65536 by omega)]
    have hlb : (TwoByteInt.ofNat s.length).to_bytes =
        [s.length / 256, s.length % 256] := by
      show [s.length % 65536 / 256 % 256, s.length % 65536 % 256] = _
      have e1 : s.length % 65536 / 256 % 256 = s.length / 256 := by omega
      have e2 : s.length % 65536 % 256 = s.length % 256 := by omega
      rw [e1, e2]
    rw [hlb]
    rw [writeSlice, writeSlice]
    simp only [List.take_zero, List.nil_append, List.length_cons,
      List.length_nil, Nat.zero_add, List.cons_append]
    rw [show ∀ (a b : Nat) (t : List Nat),
        (a :: b :: t).take 2 = [a, b] from fun _ _ _ => rfl]
    rw [show ∀ (a b : Nat) (t : List Nat) (n : Nat),
        (a :: b :: t).drop (2 + n) = t.drop n from fun _ _ _ _ => by
      rw [Nat.add_comm]
      rfl]
    rw [List.drop_drop, hClen]
    simp [Nat.add_comm]
  refine ⟨_, ⟨⟨C ++ List.replicate (N - C.length) 0, C.length⟩, C.length % 65536⟩,
    hout, ?_, by show C.length % 65536 = s.length; omega,
    by show C.length = s.value.len; omega, ?_⟩
  · rw [Utf8String.decode]
    simp only [TwoByteInt.from_bytes, TwoByteInt.value]
    rw [if_neg (by
      simp only [List.length_cons, List.length_append, List.length_drop]
      omega)]
    rw [show ((s.length / 256 :: s.length % 256 ::
        (C ++ buffer.drop (s.length + 2))).drop 2) = C ++ buffer.drop (s.length + 2)
      from rfl]
    have hval : s.length / 256 * 256 + s.length % 256 = s.length := by omega
    rw [hval]
    rw [show (C ++ buffer.drop (s.length + 2)).take s.length = C from by
      rw [← hClen]
      exact List.take_left C _]
    rw [if_pos hvalid, if_neg (by rw [hnull]; exact Bool.false_ne_true)]
    exact set_fresh N C hCN hnull
  · show (C ++ List.replicate (N - C.length) 0).take C.length = C
    exact List.take_left C _

open Midge in
/-- Counterexample to C2 as stated: the capacity-2 string obtained by
`set "AB"` then `set "A"` has length 1, content `"A"` with no null
byte, yet `decode(encode(s)) ≠ s` under the source's derived equality,
because `clear` does not zero the backing buffer: the re-set string
keeps the stale byte `0x42` at buffer index 1 while the decoded string
carries a zeroed buffer there. -/
theorem utf8_roundtrip_counterexample :
    ∃ s1 s2 r, (Utf8String.new 2).set [65, 66] = .ok s1 ∧
      s1.set [65] = .ok s2 ∧
      s2.length = 1 ∧
      (s2.value.buffer.take s2.value.len).contains 0 = false ∧
      validUtf8 (s2.value.buffer.take s2.value.len) = true ∧
      s2.encode [0, 0, 0] = some (.ok (3, [0, 1, 65])) ∧
      Utf8String.decode 2 [0, 1, 65] = .ok r ∧
      r ≠ s2 := by
  refine ⟨⟨⟨[65, 66], 2⟩, 2⟩, ⟨⟨[65, 66], 1⟩, 1⟩, ⟨⟨[65, 0], 1⟩, 1⟩,
    rfl, rfl, rfl, rfl, rfl, rfl, rfl, ?_⟩
  intro h
  exact absurd (congrArg (fun u => u.value.buffer) h) (by decide)

open Midge in
/-- Witness for the amended C2 at the concrete capacity-2 string
holding `"AB"` and a 4-byte target buffer. -/
theorem utf8_encode_decode_roundtrip_witness :
    ∃ out r,
      (⟨⟨[65, 66], 2⟩, 2⟩ : Utf8String 2).encode [9, 9, 9, 9] =
        some (.ok (2 + (⟨⟨[65, 66], 2⟩, 2⟩ : Utf8String 2).length, out)) ∧
      Utf8String.decode 2 out = .ok r ∧
      r.length = (⟨⟨[65, 66], 2⟩, 2⟩ : Utf8String 2).length ∧
      r.value.len = (⟨⟨[65, 66], 2⟩, 2⟩ : Utf8String 2).value.len ∧
      r.value.buffer.take r.value.len =
        (⟨⟨[65, 66], 2⟩, 2⟩ : Utf8String 2).value.buffer.take
          (⟨⟨[65, 66], 2⟩, 2⟩ : Utf8String 2).value.len :=
  utf8_encode_decode_roundtrip 2 ⟨⟨[65, 66], 2⟩, 2⟩ [9, 9, 9, 9]
    rfl (by norm_num) rfl (by norm_num) rfl rfl (by norm_num)

namespace Midge

/-- The `as u16` truncation in `Utf8String::set`: at capacity 65536,
setting a 65536-byte null-free ASCII string succeeds but stores length
field `65536 % 65536 = 0` while the buffer's used length is 65536. -/
theorem set_trunc :
    (Utf8String.new 65536).set (List.replicate 65536 97) =
      .ok ⟨⟨List.replicate 65536 97, 65536⟩, 0⟩ := by
  rw [set_fresh 65536 (List.replicate 65536 97) (by rw [List.length_replicate])
    (contains_replicate_97 65536)]
  norm_num

theorem getD_cons_cons_ge (a b : Nat) (t : List Nat) (i : Nat) (h : 2 ≤ i) :
    (a :: b :: t).getD i 0 = t.getD (i - 2) 0 := by
  obtain ⟨j, rfl⟩ : ∃ j, i = j + 2 := ⟨i - 2, by omega⟩
  simp [List.getD_cons_succ]

theorem getD_drop_nat (l : List Nat) (k i : Nat) :
    (l.drop k).getD i 0 = l.getD (k + i) 0 := by
  simp [List.getD_eq_getD_get?, List.get?_drop]

/-- Encoding the truncated state reaches the `copy_from_slice` length
mismatch (the length field says 0 bytes, the content is 65536 bytes):
a panic, for any target buffer that passes the two error guards. -/
theorem encode_trunc_none (buf : List Nat) (h2 : 2 ≤ buf.length) :
    (⟨⟨List.replicate 65536 97, 65536⟩, 0⟩ : Utf8String 65536).encode buf =
      none := by
  rw [Utf8String.encode]
  rw [if_neg (by norm_num [MAX_STR_LEN])]
  rw [if_neg (by show ¬ (buf.length < (0 + 2) % 65536); omega)]
  rw [if_neg (by omega)]
  rw [if_neg (by show ¬ (buf.length < 2 + 0); omega)]
  rw [show (⟨List.replicate 65536 97, 65536⟩ : FixedStr 65536).as_str =
      some (List.replicate 65536 97) from by
    rw [FixedStr.as_str]
    rw [show (List.replicate 65536 97).take 65536 = List.replicate 65536 97 from
      List.take_of_length_le (by rw [List.length_replicate])]
    rw [if_pos (validUtf8_replicate_97 65536)]]
  dsimp only []
  rw [if_neg (by rw [List.length_replicate]; norm_num)]

end Midge

open Midge in
/-- C4 fails on the code (code bug): at capacity `N = 65536`, setting a
65536-byte null-free valid-UTF-8 string succeeds, after which the
16-bit length field holds `0` (the `as u16` cast truncated 65536) while
the backing buffer's used length is 65536 — the claimed invariant
"length field = buffer used length" is violated on a set-reachable
state. -/
theorem utf8_length_field_desync :
    ∃ u, (Utf8String.new 65536).set (List.replicate 65536 97) = .ok u ∧
      validUtf8 (List.replicate 65536 97) = true ∧
      u.value.len = 65536 ∧ u.length = 0 :=
  ⟨⟨⟨List.replicate 65536 97, 65536⟩, 0⟩, set_trunc,
    validUtf8_replicate_97 65536, rfl, rfl⟩

open Midge in
/-- C3 fails on the code (code bug): `Utf8String::encode` panics on a
reachable state.  At capacity 65536, `set` of a 65536-byte null-free
ASCII string succeeds (truncating the length field to 0); `encode` into
a 12-byte buffer then passes both error guards and reaches
`buffer[2..2].copy_from_slice` with a 65536-byte source slice — a
length-mismatch panic (`none`), not an error value. -/
theorem utf8_encode_reachable_panic :
    ∃ u, (Utf8String.new 65536).set (List.replicate 65536 97) = .ok u ∧
      u.encode (List.replicate 12 0) = none :=
  ⟨⟨⟨List.replicate 65536 97, 65536⟩, 0⟩, set_trunc,
    encode_trunc_none (List.replicate 12 0) (by rw [List.length_replicate]; norm_num)⟩

open Midge in
/-- C8 amended: for every `Utf8String` state whose length field equals
the buffer's used length, is at most 65533, and whose content is valid
UTF-8 (every state not corrupted by the `as u16` truncation in `set`;
the one vacuous guard `length > 65535` can never fire on a `u16`
field), and for every target buffer: encode fails with buffer-overflow
when the target is shorter than length + 2, and otherwise writes the
big-endian 2-byte length prefix followed by the content bytes, returns
`length + 2`, and leaves every target byte past position `length + 1`
unchanged.  Length-field values 65534-65535 are excluded: there the
`u16` additions `self.length + 2` and `2 + self.length` overflow, so
in release builds the overflow guard wraps (a too-short buffer panics
at the slice indexing instead of returning buffer-overflow) and the
returned count wraps, while debug builds panic on the addition. -/
theorem utf8_encode_spec (N : Nat) (s : Utf8String N) (buffer : List Nat)
    (hbuf : s.value.buffer.length = N) (hlen : s.value.len ≤ N)
    (hsync : s.length = s.value.len) (hmax : s.length ≤ 65533)
    (hvalid : validUtf8 (s.value.buffer.take s.value.len) = true) :
    (s.length > 65535 → s.encode buffer = some (.error .Utf8StringTooLong)) ∧
    (s.length ≤ 65535 → buffer.length < s.length + 2 →
      s.encode buffer = some (.error .Utf8BufferOverflow)) ∧
    (s.length + 2 ≤ buffer.length →
      ∃ out, s.encode buffer = some (.ok (2 + s.length, out)) ∧
        out.length = buffer.length ∧
        out.getD 0 0 = s.length / 256 ∧ out.getD 1 0 = s.length % 256 ∧
        (out.drop 2).take s.length = s.value.buffer.take s.value.len ∧
        (∀ i, s.length + 2 ≤ i → out.getD i 0 = buffer.getD i 0)) := by
  set C := s.value.buffer.take s.value.len with hC
  have hClen : C.length = s.length := by
    rw [hC, List.length_take]
    omega
  refine ⟨by omega, ?_, ?_⟩
  · intro _ hsmall
    rw [Utf8String.encode]
    rw [if_neg (by simp only [MAX_STR_LEN]; omega)]
    rw [if_pos (show buffer.length < (s.length + 2) % 65536 by omega)]
  · intro htarget
    have hout : s.encode buffer = some (.ok (2 + s.length,
        s.length / 256 :: s.length % 256 :: (C ++ buffer.drop (s.length + 2)))) := by
      rw [Utf8String.encode]
      rw [if_neg (by simp only [MAX_STR_LEN]; omega)]
      rw [if_neg (by omega)]
      rw [if_neg (by omega)]
      rw [if_neg (by omega)]
      rw [show s.value.as_str = some C from by rw [FixedStr.as_str, if_pos hvalid]]
      dsimp only []
      rw [if_pos hClen]
      rw [Nat.mod_eq_of_lt (show 2 + s.length < 65536 by omega)]
      have hlb : (TwoByteInt.ofNat s.length).to_bytes =
          [s.length / 256, s.length % 256] := by
        show [s.length % 65536 / 256 % 256, s.length % 65536 % 256] = _
        have e1 : s.length % 65536 / 256 % 256 = s.length / 256 := by omega
        have e2 : s.length % 65536 % 256 = s.length % 256 := by omega
        rw [e1, e2]
      rw [hlb]
      rw [writeSlice, writeSlice]
      simp only [List.take_zero, List.nil_append, List.length_cons,
        List.length_nil, Nat.zero_add, List.cons_append]
      rw [show ∀ (a b : Nat) (t : List Nat),
          (a :: b :: t).take 2 = [a, b] from fun _ _ _ => rfl]
      rw [show ∀ (a b : Nat) (t : List Nat) (n : Nat),
          (a :: b :: t).drop (2 + n) = t.drop n from fun _ _ _ _ => by
        rw [Nat.add_comm]
        rfl]
      rw [List.drop_drop, hClen]
      simp [Nat.add_comm]
    refine ⟨_, hout, ?_, rfl, rfl, ?_, ?_⟩
    · simp only [List.length_cons, List.length_append, List.length_drop]
      omega
    · rw [show ((s.length / 256 :: s.length % 256 ::
        (C ++ buffer.drop (s.length + 2))).drop 2) = C ++ buffer.drop (s.length + 2)
        from rfl]
      rw [show (C ++ buffer.drop (s.length + 2)).take s.length = C from by
        rw [← hClen]
        exact List.take_left C _]
    · intro i hi
      rw [getD_cons_cons_ge _ _ _ i (by omega)]
      rw [List.getD_append_right _ _ _ _ (by omega)]
      rw [getD_drop_nat]
      congr 1
      omega

open Midge in
/-- Witness for the amended C8 at the capacity-1 string holding `"B"`
and a 5-byte target buffer. -/
theorem utf8_encode_spec_witness :
    ((⟨⟨[66], 1⟩, 1⟩ : Utf8String 1).length > 65535 →
      (⟨⟨[66], 1⟩, 1⟩ : Utf8String 1).encode [9, 9, 9, 9, 9] =
        some (.error .Utf8StringTooLong)) ∧
    ((⟨⟨[66], 1⟩, 1⟩ : Utf8String 1).length ≤ 65535 →
      ([9, 9, 9, 9, 9] : List Nat).length < (⟨⟨[66], 1⟩, 1⟩ : Utf8String 1).length + 2 →
      (⟨⟨[66], 1⟩, 1⟩ : Utf8String 1).encode [9, 9, 9, 9, 9] =
        some (.error .Utf8BufferOverflow)) ∧
    ((⟨⟨[66], 1⟩, 1⟩ : Utf8String 1).length + 2 ≤ ([9, 9, 9, 9, 9] : List Nat).length →
      ∃ out, (⟨⟨[66], 1⟩, 1⟩ : Utf8String 1).encode [9, 9, 9, 9, 9] =
        some (.ok (2 + (⟨⟨[66], 1⟩, 1⟩ : Utf8String 1).length, out)) ∧
        out.length = ([9, 9, 9, 9, 9] : List Nat).length ∧
        out.getD 0 0 = (⟨⟨[66], 1⟩, 1⟩ : Utf8String 1).length / 256 ∧
        out.getD 1 0 = (⟨⟨[66], 1⟩, 1⟩ : Utf8String 1).length % 256 ∧
        (out.drop 2).take (⟨⟨[66], 1⟩, 1⟩ : Utf8String 1).length =
          (⟨⟨[66], 1⟩, 1⟩ : Utf8String 1).value.buffer.take
            (⟨⟨[66], 1⟩, 1⟩ : Utf8String 1).value.len ∧
        (∀ i, (⟨⟨[66], 1⟩, 1⟩ : Utf8String 1).length + 2 ≤ i →
          out.getD i 0 = ([9, 9, 9, 9, 9] : List Nat).getD i 0)) :=
  utf8_encode_spec 1 ⟨⟨[66], 1⟩, 1⟩ [9, 9, 9, 9, 9]
    rfl (by norm_num) rfl (by norm_num) rfl

open Midge in
/-- Counterexample to C8 as stated ("for every Utf8String state"): on
the set-reachable truncated state (capacity 65536, 65536-byte content,
length field 0) with a 16-byte target buffer, neither error guard
fires, yet encode panics (`none`) instead of writing and returning
`length + 2`. -/
theorem utf8_encode_spec_counterexample :
    ∃ u, (Utf8String.new 65536).set (List.replicate 65536 97) = .ok u ∧
      ¬ (u.length > 65535) ∧
      ¬ ((List.replicate 16 0 : List Nat).length < u.length + 2) ∧
      u.encode (List.replicate 16 0) = none :=
  ⟨⟨⟨List.replicate 65536 97, 65536⟩, 0⟩, set_trunc,
    by norm_num,
    by rw [List.length_replicate]; norm_num,
    encode_trunc_none (List.replicate 16 0) (by rw [List.length_replicate]; norm_num)⟩
